import Mathlib

/-!
# Report frame builder (system/reporter/frame_builder.go)

A shallow embedding of the report frame builder: the builder state, the
column index built at construction, row projection (addRow), link tagging
(linked) and the hand-off of a finished frame (done).

Pointers that matter for aliasing (the Paging descriptor of a definition and
of a frame) are addresses into an explicit store; every other field is held
by value.
-/

namespace Reporter

/-! ## Values and their textual form -/

/-- A value handed out by a row (Go: any). The scalar kinds whose "%v"
rendering is a plain function of the value are covered: the nil interface
value, strings, integers and booleans. -/
inductive Val where
  | nil
  | str (s : String)
  | int (z : Int)
  | bool (b : Bool)
deriving DecidableEq, Repr

/-- The rendering fmt.Sprintf("%v", val) of Go: a nil interface value prints as
the five characters <nil>, a string as itself, an integer in decimal, a boolean
as true or false. -/
def fmtV : Val → String
  | Val.nil => "<nil>"
  | Val.str s => s
  | Val.int z => toString z
  | Val.bool b => if b then "true" else "false"

/-! ## Go maps keyed by strings -/

/-- A Go map with string keys, as the list of its assignments, most recent
first. The nil map is the empty list. -/
abbrev GoMap (α : Type) := List (String × α)

/-- Assignment m[k] = v. -/
def GoMap.assign {α : Type} (m : GoMap α) (k : String) (v : α) : GoMap α :=
  (k, v) :: m

/-- Two-result lookup v, ok := m[k]. -/
def GoMap.find {α : Type} : GoMap α → String → Option α
  | [], _ => none
  | (k', v) :: m, k => if k' = k then some v else GoMap.find m k

/-- One-result lookup m[k] on a map of strings: the zero value "" when the key
is missing (also on the nil map). -/
def GoMap.index (m : GoMap String) (k : String) : String :=
  (m.find k).getD ""

/-! ## Store of Paging objects -/

/-- The two fields of filter.Paging the builder copies. -/
structure Paging where
  Limit : Nat
  PageCursor : Option String
deriving DecidableEq, Repr

/-- The store of Paging objects; a pointer is an index into it. -/
abbrev Store := List Paging

/-- Reading through a pointer. An address outside the store reads as the zero
Paging; pointers obtained from alloc are always inside. -/
def Store.deref (s : Store) (p : Nat) : Paging :=
  s.getD p { Limit := 0, PageCursor := none }

/-- Allocation of a new Paging object: the extended store and the new address. -/
def Store.alloc (s : Store) (pg : Paging) : Store × Nat :=
  (s ++ [pg], s.length)

/-- Assignment p.Limit = n through a pointer. -/
def Store.writeLimit (s : Store) (p : Nat) (n : Nat) : Store :=
  s.set p { s.deref p with Limit := n }

/-- Assignment p.PageCursor = c through a pointer. -/
def Store.writePageCursor (s : Store) (p : Nat) (c : Option String) : Store :=
  s.set p { s.deref p with PageCursor := c }

/-! ## Data model -/

/-- A column of a frame definition (types.ReportFrameColumn): the fields the
builder reads. -/
structure ReportFrameColumn where
  Name : String
  Multivalue : Bool
  MultivalueDelimiter : String
deriving DecidableEq, Repr

/-- A row of a frame: one string per column. -/
abbrev ReportFrameRow := List String

/-- The frame definition (types.ReportFrameDefinition). Sort and Filter are
carried through unread, so they are kept as uninterpreted strings (Sort_ stands for
the field Sort, a reserved word here). Paging is a
pointer, absent when nil. -/
structure ReportFrameDefinition where
  Name : String
  Source : String
  Ref : String
  Columns : List ReportFrameColumn
  Sort_ : String
  Filter : String
  Paging : Option Nat
deriving DecidableEq, Repr

/-- A report frame (types.ReportFrame). -/
structure ReportFrame where
  Name : String
  Source : String
  Ref : String
  Rows : List ReportFrameRow
  Columns : List ReportFrameColumn
  Sort_ : String
  Filter : String
  Paging : Option Nat
  RelColumn : String
  RefValue : String
deriving DecidableEq, Repr

/-- Modelled from the spec: dal.Row, whose declaration is not among the sources.
A row lets the builder enumerate its attribute names with a count of values
for each (CountValues, a Go map, here in the order it is ranged over) and read
a value by attribute name and index (GetValue, whose absent result is nil). -/
structure Row where
  CountValues : List (String × Nat)
  GetValue : String → Nat → Val

/-- A row given by its attributes and their values: the count of an attribute is
the number of its values, and a read outside them is absent. -/
def Row.ofAttrs (attrs : List (String × List Val)) : Row where
  CountValues := attrs.map fun a => (a.1, a.2.length)
  GetValue := fun k i =>
    match GoMap.find attrs k with
    | some vs => vs.getD i Val.nil
    | none => Val.nil

/-- The builder (reportFrameBuilder). The frame pointer is never nil once the
constructor has returned, so the current frame is held by value. -/
structure reportFrameBuilder where
  def_ : ReportFrameDefinition
  frame : ReportFrame
  attrMapping : GoMap Nat
  attrMvDel : GoMap String
deriving Repr

/-! ## Operations -/

/-- The loop of newReportFrameBuilder over def.Columns, from index i on, acting
on the two local maps attrMap and mvDelMap. -/
def indexColumns : List ReportFrameColumn → Nat → GoMap Nat × GoMap String →
    GoMap Nat × GoMap String
  | [], _, acc => acc
  | c :: cs, i, (attrMap, mvDelMap) =>
    let attrMap := attrMap.assign c.Name i
    let mvDelMap :=
      if c.Multivalue then
        let mvDelMap := mvDelMap.assign c.Name c.MultivalueDelimiter
        if mvDelMap.index c.Name = "" then mvDelMap.assign c.Name "\n" else mvDelMap
      else mvDelMap
    indexColumns cs (i + 1) (attrMap, mvDelMap)

/-- The method freshFrame, on the builder fields it reads: cur is the frame
pointer (none when nil). With a current frame, its copy with Rows cleared and
every other field, the Paging pointer included, as it was. Without one, a frame
from the definition, with a newly allocated copy of the definition's Paging. -/
def freshFrame (s : Store) (d : ReportFrameDefinition) (cur : Option ReportFrame) :
    Store × ReportFrame :=
  match cur with
  | some f => (s, { f with Rows := [] })
  | none =>
    let f : ReportFrame :=
      { Name := d.Name, Source := d.Source, Ref := d.Ref, Rows := [],
        Columns := d.Columns, Sort_ := d.Sort_, Filter := d.Filter,
        Paging := none, RelColumn := "", RefValue := "" }
    match d.Paging with
    | none => (s, f)
    | some p =>
      let a := s.alloc { Limit := (s.deref p).Limit, PageCursor := (s.deref p).PageCursor }
      (a.1, { f with Paging := some a.2 })

/-- The constructor newReportFrameBuilder. The struct literal sets def and
attrMapping only: attrMvDel keeps its zero value, the nil map, and the local
mvDelMap is dropped. -/
def newReportFrameBuilder (s : Store) (d : ReportFrameDefinition) :
    Store × reportFrameBuilder :=
  let maps := indexColumns d.Columns 0 ([], [])
  let attrMap := maps.1
  let fr := freshFrame s d none
  (fr.1, { def_ := d, frame := fr.2, attrMapping := attrMap, attrMvDel := [] })

/-- The method linked. -/
def linked (b : reportFrameBuilder) (col : String) : reportFrameBuilder :=
  { b with frame := { b.frame with RelColumn := col } }

/-- The method stringifyVal. -/
def stringifyVal (_b : reportFrameBuilder) (_col : String) (val : Val) : String :=
  fmtV val

/-- The method joinMultiVal: strings.Join with the delimiter attrMvDel[col]. -/
def joinMultiVal (b : reportFrameBuilder) (col : String) (vals : List String) : String :=
  String.intercalate (b.attrMvDel.index col) vals

/-- The inner loop of addRow for attribute k with count cc: auxRow, joined. -/
def addRowCell (b : reportFrameBuilder) (r : Row) (k : String) (cc : Nat) : String :=
  joinMultiVal b k ((List.range cc).map fun i => stringifyVal b k (r.GetValue k i))

/-- The body of the outer loop of addRow for one entry of CountValues. -/
def addRowStep (b : reportFrameBuilder) (r : Row) (rrow : ReportFrameRow)
    (e : String × Nat) : ReportFrameRow :=
  match b.attrMapping.find e.1 with
  | none => rrow
  | some ix => rrow.set ix (addRowCell b r e.1 e.2)

/-- The row rrow that addRow builds: len(def.Columns) empty strings, then the
outer loop over CountValues. -/
def projectRow (b : reportFrameBuilder) (r : Row) : ReportFrameRow :=
  r.CountValues.foldl (addRowStep b r) (List.replicate b.def_.Columns.length "")

/-- The method addRow. -/
def addRow (b : reportFrameBuilder) (r : Row) : reportFrameBuilder :=
  let rrow := projectRow b r
  let frame := { b.frame with Rows := b.frame.Rows ++ [rrow] }
  let frame :=
    if frame.RelColumn ≠ "" then
      { frame with RefValue := stringifyVal b frame.RelColumn (r.GetValue frame.RelColumn 0) }
    else frame
  { b with frame := frame }

/-- The method done: the current frame, and the builder with a fresh one. -/
def done (s : Store) (b : reportFrameBuilder) : ReportFrame × Store × reportFrameBuilder :=
  let out := b.frame
  let fr := freshFrame s b.def_ (some b.frame)
  (out, fr.1, { b with frame := fr.2 })

/-- A run of addRow calls, in order. -/
def addRows (b : reportFrameBuilder) (rs : List Row) : reportFrameBuilder :=
  rs.foldl addRow b

/-! ## Reading and writing a frame's Paging through the store -/

/-- What a holder of frame f reads as its Paging in store s. -/
def readPaging (s : Store) (f : ReportFrame) : Option Paging :=
  f.Paging.map s.deref

/-- A holder of frame f assigning f.Paging.Limit = n. -/
def writeFrameLimit (s : Store) (f : ReportFrame) (n : Nat) : Store :=
  match f.Paging with
  | some p => s.writeLimit p n
  | none => s

/-- A holder of frame f assigning f.Paging.PageCursor = c. -/
def writeFramePageCursor (s : Store) (f : ReportFrame) (c : Option String) : Store :=
  match f.Paging with
  | some p => s.writePageCursor p c
  | none => s

/-- Two successive done calls on a new builder for d: the first frame returned,
the second frame returned, and the store after both. -/
def twoDones (s : Store) (d : ReportFrameDefinition) : ReportFrame × ReportFrame × Store :=
  let nb := newReportFrameBuilder s d
  let d1 := done nb.1 nb.2
  let d2 := done d1.2.1 d1.2.2
  (d1.1, d2.1, d2.2.1)

/-! ## Sample definitions and rows -/

/-- A definition with the given columns and Paging pointer and blank metadata. -/
def sampleDef (cols : List ReportFrameColumn) (pg : Option Nat) : ReportFrameDefinition :=
  { Name := "", Source := "", Ref := "", Columns := cols, Sort_ := "", Filter := "",
    Paging := pg }

/-- One multivalue column tags with the given delimiter. -/
def tagsDef (delimiter : String) : ReportFrameDefinition :=
  sampleDef [{ Name := "tags", Multivalue := true, MultivalueDelimiter := delimiter }] none

/-- Columns name (single valued) and tags (multivalue, delimiter ";"). -/
def nameTagsDef : ReportFrameDefinition :=
  sampleDef [{ Name := "name", Multivalue := false, MultivalueDelimiter := "" },
             { Name := "tags", Multivalue := true, MultivalueDelimiter := ";" }] none

/-- One single valued column id. -/
def idDef : ReportFrameDefinition :=
  sampleDef [{ Name := "id", Multivalue := false, MultivalueDelimiter := "" }] none

/-- One single valued column name. -/
def nameDef : ReportFrameDefinition :=
  sampleDef [{ Name := "name", Multivalue := false, MultivalueDelimiter := "" }] none

/-- A store holding one Paging object, at address 0. -/
def pagedStore : Store := [{ Limit := 10, PageCursor := some "c1" }]

/-- A definition with no columns whose Paging points at address 0. -/
def pagedDef : ReportFrameDefinition := sampleDef [] (some 0)

/-- The row tags = [1, 2, 3]. -/
def rowTags123 : Row := Row.ofAttrs [("tags", [Val.int 1, Val.int 2, Val.int 3])]

/-- The row tags = ["a", "b"]. -/
def rowTagsAB : Row := Row.ofAttrs [("tags", [Val.str "a", Val.str "b"])]

/-- The row name = "Alice", tags = ["x", "y"]. -/
def rowAlice : Row :=
  Row.ofAttrs [("name", [Val.str "Alice"]), ("tags", [Val.str "x", Val.str "y"])]

/-- The row id = "7". -/
def rowId7 : Row := Row.ofAttrs [("id", [Val.str "7"])]

/-- The row id = "9". -/
def rowId9 : Row := Row.ofAttrs [("id", [Val.str "9"])]

/-- The row name = ["a", "b"]: two values on a single valued column. -/
def rowNameAB : Row := Row.ofAttrs [("name", [Val.str "a", Val.str "b"])]

/-- The row name = "Bob", with no attribute id. -/
def rowBob : Row := Row.ofAttrs [("name", [Val.str "Bob"])]

/-- The row name = "Bob", extra = [1, 2]. -/
def rowBobExtra : Row :=
  Row.ofAttrs [("name", [Val.str "Bob"]), ("extra", [Val.int 1, Val.int 2])]

/-! ## Runs of operations -/

/-- A call on the builder. -/
inductive Op where
  | linked (col : String)
  | addRow (r : Row)
  | done

/-- A builder in use: the store, the builder, and the frames its done calls have
returned so far, oldest first. -/
structure RunState where
  store : Store
  builder : reportFrameBuilder
  sealed : List ReportFrame

/-- The state right after newReportFrameBuilder. -/
def RunState.start (s : Store) (d : ReportFrameDefinition) : RunState :=
  { store := (newReportFrameBuilder s d).1, builder := (newReportFrameBuilder s d).2,
    sealed := [] }

/-- One call. -/
def RunState.step (st : RunState) : Op → RunState
  | Op.linked col => { st with builder := linked st.builder col }
  | Op.addRow r => { st with builder := addRow st.builder r }
  | Op.done =>
    { store := (done st.store st.builder).2.1, builder := (done st.store st.builder).2.2,
      sealed := st.sealed ++ [(done st.store st.builder).1] }

/-- A sequence of calls on a new builder for d. -/
def run (s : Store) (d : ReportFrameDefinition) (ops : List Op) : RunState :=
  ops.foldl RunState.step (RunState.start s d)

/-- The segments of a call sequence as the specification describes them: the
rows projected by the addRow calls since the previous done (pending holds those
seen so far), one list per done call, in call order. The projection is taken
with the builder b. -/
def segmentRows (b : reportFrameBuilder) : List Op → List ReportFrameRow →
    List (List ReportFrameRow)
  | [], _ => []
  | Op.linked _ :: ops, pending => segmentRows b ops pending
  | Op.addRow r :: ops, pending => segmentRows b ops (pending ++ [projectRow b r])
  | Op.done :: ops, pending => pending :: segmentRows b ops []

/-- The fields of a frame that freshFrame takes from the definition: the frame
with Rows, RelColumn and RefValue blanked. -/
def ReportFrame.metadata (f : ReportFrame) : ReportFrame :=
  { f with Rows := [], RelColumn := "", RefValue := "" }

/-- A call sequence with three segments, of two, zero and one rows. -/
def sampleOps : List Op :=
  [Op.addRow (Row.ofAttrs [("id", [Val.str "7"])]), Op.linked "id",
   Op.addRow (Row.ofAttrs [("id", [Val.str "9"])]), Op.done, Op.done,
   Op.addRow (Row.ofAttrs [("id", [Val.str "8"])]), Op.done]

/-- The first frame sealed by sampleOps on the definition idDef. -/
def sampleSealed : ReportFrame :=
  { Name := "", Source := "", Ref := "", Rows := [["7"], ["9"]],
    Columns := [{ Name := "id", Multivalue := false, MultivalueDelimiter := "" }],
    Sort_ := "", Filter := "", Paging := none, RelColumn := "id", RefValue := "9" }

/-- The frame sealed by one done on a new builder for pagedDef in pagedStore. -/
def pagedSealed : ReportFrame :=
  { Name := "", Source := "", Ref := "", Rows := [], Columns := [],
    Sort_ := "", Filter := "", Paging := some 1, RelColumn := "", RefValue := "" }

/-! ## addRow with the index checks of Go -/

/-- The assignment row[ix] = v with its bounds check: none is the
index-out-of-range panic. -/
def setChecked (row : ReportFrameRow) (ix : Nat) (v : String) : Option ReportFrameRow :=
  if ix < row.length then some (row.set ix v) else none

/-- The inner loop of addRow with its index check: auxRow has length cc and
auxRow[i] is assigned for i = 0, ..., cc - 1; then the join. -/
def addRowCellChecked (b : reportFrameBuilder) (r : Row) (k : String) (cc : Nat) :
    Option String :=
  ((List.range cc).foldlM
      (fun auxRow i => setChecked auxRow i (stringifyVal b k (r.GetValue k i)))
      (List.replicate cc "")).map (joinMultiVal b k)

/-- The body of the outer loop of addRow with its index checks. -/
def addRowStepChecked (b : reportFrameBuilder) (r : Row) (rrow : ReportFrameRow)
    (e : String × Nat) : Option ReportFrameRow :=
  match b.attrMapping.find e.1 with
  | none => some rrow
  | some ix =>
    match addRowCellChecked b r e.1 e.2 with
    | none => none
    | some cell => setChecked rrow ix cell

/-- The method addRow with its index checks: none when an index is out of
range, else the builder after the call. -/
def addRowChecked (b : reportFrameBuilder) (r : Row) : Option reportFrameBuilder :=
  match r.CountValues.foldlM (addRowStepChecked b r)
      (List.replicate b.def_.Columns.length "") with
  | none => none
  | some rrow =>
    let frame := { b.frame with Rows := b.frame.Rows ++ [rrow] }
    let frame :=
      if frame.RelColumn ≠ "" then
        { frame with RefValue := stringifyVal b frame.RelColumn (r.GetValue frame.RelColumn 0) }
      else frame
    some { b with frame := frame }

/-! ## More sample definitions and rows -/

/-- Columns k, other, k: the name k at positions 0 and 2. -/
def dupDef : ReportFrameDefinition :=
  sampleDef [{ Name := "k", Multivalue := false, MultivalueDelimiter := "" },
             { Name := "other", Multivalue := false, MultivalueDelimiter := "" },
             { Name := "k", Multivalue := false, MultivalueDelimiter := "" }] none

/-- The row k = "v". -/
def rowK : Row := Row.ofAttrs [("k", [Val.str "v"])]

/-- The row name = "Bob", tags = ["x", "y"]. -/
def rowBobTags : Row :=
  Row.ofAttrs [("name", [Val.str "Bob"]), ("tags", [Val.str "x", Val.str "y"])]

/-! ## The column index -/

theorem find_assign {α : Type} (m : GoMap α) (k k' : String) (v : α) :
    (m.assign k v).find k' = if k = k' then some v else m.find k' := by
  simp [GoMap.assign, GoMap.find]

theorem indexColumns_fst_find_of_not_mem (cs : List ReportFrameColumn) (i : Nat)
    (acc : GoMap Nat × GoMap String) (k : String)
    (hk : k ∉ cs.map ReportFrameColumn.Name) :
    (indexColumns cs i acc).1.find k = acc.1.find k := by
  induction cs generalizing i acc with
  | nil => rfl
  | cons c cs ih =>
    obtain ⟨am, mv⟩ := acc
    simp only [List.map_cons, List.mem_cons, not_or] at hk
    simp only [indexColumns]
    rw [ih _ _ hk.2, find_assign, if_neg (fun h => hk.1 h.symm)]

theorem indexColumns_fst_find_last (cs : List ReportFrameColumn) (i : Nat)
    (acc : GoMap Nat × GoMap String) (p : Nat) (c : ReportFrameColumn)
    (hp : cs[p]? = some c)
    (hlast : ∀ q c', p < q → cs[q]? = some c' → c'.Name ≠ c.Name) :
    (indexColumns cs i acc).1.find c.Name = some (i + p) := by
  induction cs generalizing i acc p with
  | nil => simp at hp
  | cons c0 cs ih =>
    obtain ⟨am, mv⟩ := acc
    simp only [indexColumns]
    cases p with
    | zero =>
      simp only [List.getElem?_cons_zero, Option.some.injEq] at hp
      subst hp
      have hnot : c0.Name ∉ cs.map ReportFrameColumn.Name := by
        intro hmem
        obtain ⟨c', hc', hname⟩ := List.mem_map.1 hmem
        obtain ⟨q, hq⟩ := List.getElem?_of_mem hc'
        exact hlast (q + 1) c' (Nat.succ_pos q) (by simpa using hq) hname
      rw [indexColumns_fst_find_of_not_mem _ _ _ _ hnot, find_assign, if_pos rfl]
      rfl
    | succ p =>
      simp only [List.getElem?_cons_succ] at hp
      have h := ih (i + 1) (am.assign c0.Name i, 
        if c0.Multivalue then
          if (mv.assign c0.Name c0.MultivalueDelimiter).index c0.Name = "" then
            (mv.assign c0.Name c0.MultivalueDelimiter).assign c0.Name "\n"
          else mv.assign c0.Name c0.MultivalueDelimiter
        else mv) p hp
        (fun q c' hq hc' => hlast (q + 1) c' (Nat.succ_lt_succ hq) (by simpa using hc'))
      rw [h]
      congr 1
      omega

theorem indexColumns_fst_find_some (cs : List ReportFrameColumn) (i : Nat)
    (acc : GoMap Nat × GoMap String) (k : String) (j : Nat)
    (h : (indexColumns cs i acc).1.find k = some j) :
    acc.1.find k = some j ∨
      (i ≤ j ∧ ∃ c, cs[j - i]? = some c ∧ c.Name = k) := by
  induction cs generalizing i acc with
  | nil => exact Or.inl h
  | cons c0 cs ih =>
    obtain ⟨am, mv⟩ := acc
    simp only [indexColumns] at h
    rcases ih _ _ h with h1 | ⟨h1, c, h2, h3⟩
    · rw [find_assign] at h1
      by_cases hk : c0.Name = k
      · rw [if_pos hk] at h1
        simp only [Option.some.injEq] at h1
        subst h1
        exact Or.inr ⟨le_refl _, c0, by simp, hk⟩
      · rw [if_neg hk] at h1
        exact Or.inl h1
    · refine Or.inr ⟨by omega, c, ?_, h3⟩
      have : j - i = (j - (i + 1)) + 1 := by omega
      rw [this, List.getElem?_cons_succ]
      exact h2


/-! ## The row loop -/

theorem addRowStep_length (b : reportFrameBuilder) (r : Row) (rrow : ReportFrameRow)
    (e : String × Nat) : (addRowStep b r rrow e).length = rrow.length := by
  unfold addRowStep
  split <;> simp

theorem foldl_addRowStep_length (b : reportFrameBuilder) (r : Row)
    (es : List (String × Nat)) (rrow : ReportFrameRow) :
    (es.foldl (addRowStep b r) rrow).length = rrow.length := by
  induction es generalizing rrow with
  | nil => rfl
  | cons e es ih => rw [List.foldl_cons, ih, addRowStep_length]

theorem projectRow_length (b : reportFrameBuilder) (r : Row) :
    (projectRow b r).length = b.def_.Columns.length := by
  simp [projectRow, foldl_addRowStep_length]

theorem addRowStep_getElem?_of_ne (b : reportFrameBuilder) (r : Row) (rrow : ReportFrameRow)
    (e : String × Nat) (j : Nat) (h : b.attrMapping.find e.1 ≠ some j) :
    (addRowStep b r rrow e)[j]? = rrow[j]? := by
  unfold addRowStep
  split
  · rfl
  · next ix hix =>
    have hne : ix ≠ j := fun hh => h (hh ▸ hix)
    rw [List.getElem?_set_ne hne]

theorem foldl_addRowStep_getElem?_of_ne (b : reportFrameBuilder) (r : Row)
    (es : List (String × Nat)) (rrow : ReportFrameRow) (j : Nat)
    (h : ∀ e ∈ es, b.attrMapping.find e.1 ≠ some j) :
    (es.foldl (addRowStep b r) rrow)[j]? = rrow[j]? := by
  induction es generalizing rrow with
  | nil => rfl
  | cons e es ih =>
    rw [List.foldl_cons, ih _ (fun e' he' => h e' (List.mem_cons_of_mem _ he')),
      addRowStep_getElem?_of_ne _ _ _ _ _ (h e (List.mem_cons_self _ _))]

theorem foldl_addRowStep_getElem?_of_mem (b : reportFrameBuilder) (r : Row)
    (es : List (String × Nat)) (rrow : ReportFrameRow) (j : Nat) (e : String × Nat)
    (he : e ∈ es) (hj : j < rrow.length) (hfind : b.attrMapping.find e.1 = some j)
    (huniq : ∀ e' ∈ es, b.attrMapping.find e'.1 = some j → e' = e) :
    (es.foldl (addRowStep b r) rrow)[j]? = some (addRowCell b r e.1 e.2) := by
  induction es generalizing rrow with
  | nil => simp at he
  | cons e0 es ih =>
    rw [List.foldl_cons]
    by_cases hin : e ∈ es
    · exact ih _ hin (by rw [addRowStep_length]; exact hj)
        (fun e' he' => huniq e' (List.mem_cons_of_mem _ he'))
    · have he0 : e = e0 := by
        rcases List.mem_cons.1 he with h | h
        · exact h
        · exact absurd h hin
      subst he0
      rw [foldl_addRowStep_getElem?_of_ne]
      · unfold addRowStep
        rw [hfind]
        simp [hj]
      · intro e' he' hf
        exact hin (huniq e' (List.mem_cons_of_mem _ he') hf ▸ he')

theorem foldl_addRowStep_congr (b : reportFrameBuilder) (r r' : Row)
    (es : List (String × Nat)) (rrow : ReportFrameRow)
    (h : ∀ e ∈ es, b.attrMapping.find e.1 ≠ none → ∀ i, r'.GetValue e.1 i = r.GetValue e.1 i) :
    es.foldl (addRowStep b r') rrow = es.foldl (addRowStep b r) rrow := by
  induction es generalizing rrow with
  | nil => rfl
  | cons e es ih =>
    rw [List.foldl_cons, List.foldl_cons, ih _ (fun e' he' => h e' (List.mem_cons_of_mem _ he'))]
    congr 1
    have h0 := h e (List.mem_cons_self _ _)
    unfold addRowStep
    cases hf : b.attrMapping.find e.1 with
    | none => rfl
    | some ix =>
      have h1 := h0 (by rw [hf]; simp)
      simp only [addRowCell, h1]

/-! ## strings.Join -/

theorem intercalate_go_empty (acc : String) (l : List String) :
    String.intercalate.go acc "" l = l.foldl (fun a x => a ++ x) acc := by
  induction l generalizing acc with
  | nil => rfl
  | cons a l ih =>
    simp only [String.intercalate.go, List.foldl_cons]
    rw [ih, String.append_empty]

theorem intercalate_empty (l : List String) : String.intercalate "" l = String.join l := by
  cases l with
  | nil => rfl
  | cons a l =>
    simp only [String.intercalate, String.join, List.foldl_cons]
    rw [intercalate_go_empty, String.empty_append]

theorem intercalate_singleton (d x : String) : String.intercalate d [x] = x := rfl


/-! ## Facts about a builder made from a definition -/

theorem nodup_names_last (cs : List ReportFrameColumn)
    (h : (cs.map ReportFrameColumn.Name).Nodup) (p q : Nat) (c c' : ReportFrameColumn)
    (hp : cs[p]? = some c) (hq : cs[q]? = some c') (hpq : p < q) : c'.Name ≠ c.Name := by
  intro hname
  obtain ⟨hp1, hp2⟩ := List.getElem?_eq_some.1 hp
  obtain ⟨hq1, hq2⟩ := List.getElem?_eq_some.1 hq
  have hp3 : p < (cs.map ReportFrameColumn.Name).length := by simpa using hp1
  have hq3 : q < (cs.map ReportFrameColumn.Name).length := by simpa using hq1
  have heq : (cs.map ReportFrameColumn.Name)[p] = (cs.map ReportFrameColumn.Name)[q] := by
    simp [hp2, hq2, hname]
  have := (List.Nodup.getElem_inj_iff h).1 heq
  omega

theorem newBuilder_find_last (s : Store) (D : ReportFrameDefinition) (j : Nat)
    (c : ReportFrameColumn) (hj : D.Columns[j]? = some c)
    (hlast : ∀ q c', j < q → D.Columns[q]? = some c' → c'.Name ≠ c.Name) :
    (newReportFrameBuilder s D).2.attrMapping.find c.Name = some j := by
  have h := indexColumns_fst_find_last D.Columns 0 ([], []) j c hj hlast
  simpa [newReportFrameBuilder] using h

theorem newBuilder_find_some (s : Store) (D : ReportFrameDefinition) (k : String) (j : Nat)
    (h : (newReportFrameBuilder s D).2.attrMapping.find k = some j) :
    ∃ c, D.Columns[j]? = some c ∧ c.Name = k := by
  have h1 : (indexColumns D.Columns 0 ([], [])).1.find k = some j := h
  rcases indexColumns_fst_find_some _ _ _ _ _ h1 with h2 | ⟨_, c, h2, h3⟩
  · simp [GoMap.find] at h2
  · exact ⟨c, by simpa using h2, h3⟩

theorem newBuilder_find_none (s : Store) (D : ReportFrameDefinition) (k : String)
    (hk : k ∉ D.Columns.map ReportFrameColumn.Name) :
    (newReportFrameBuilder s D).2.attrMapping.find k = none := by
  have h := indexColumns_fst_find_of_not_mem D.Columns 0 ([], []) k hk
  simpa [newReportFrameBuilder, GoMap.find] using h

theorem newBuilder_rows (s : Store) (D : ReportFrameDefinition) :
    (newReportFrameBuilder s D).2.frame.Rows = [] := by
  simp only [newReportFrameBuilder, freshFrame]
  cases D.Paging <;> rfl

theorem newBuilder_relColumn (s : Store) (D : ReportFrameDefinition) :
    (newReportFrameBuilder s D).2.frame.RelColumn = "" := by
  simp only [newReportFrameBuilder, freshFrame]
  cases D.Paging <;> rfl

/-- The cell of the projected row at a column position j that the index maps
exactly one attribute of the row to. -/
theorem projectRow_cell (b : reportFrameBuilder) (r : Row) (j : Nat) (k : String) (n : Nat)
    (hj : j < b.def_.Columns.length)
    (hfind : b.attrMapping.find k = some j)
    (hinj : ∀ k', b.attrMapping.find k' = some j → k' = k)
    (hr : (r.CountValues.map Prod.fst).Nodup)
    (hn : (k, n) ∈ r.CountValues) :
    (projectRow b r)[j]? = some (addRowCell b r k n) := by
  unfold projectRow
  refine foldl_addRowStep_getElem?_of_mem b r r.CountValues _ j (k, n) hn (by simpa using hj)
    hfind ?_
  intro e' he' hf
  have hk : e'.1 = k := hinj _ hf
  exact List.inj_on_of_nodup_map hr he' hn hk

/-- With the nil delimiter map every join is a plain concatenation. -/
theorem addRowCell_nil_delimiters (b : reportFrameBuilder) (r : Row) (k : String) (n : Nat)
    (hb : b.attrMvDel = []) :
    addRowCell b r k n = String.join ((List.range n).map fun i => fmtV (r.GetValue k i)) := by
  simp only [addRowCell, joinMultiVal, stringifyVal, hb, GoMap.index, GoMap.find, Option.getD_none]
  exact intercalate_empty _

theorem addRow_rows (b : reportFrameBuilder) (r : Row) :
    (addRow b r).frame.Rows = b.frame.Rows ++ [projectRow b r] := by
  unfold addRow
  simp only
  split <;> rfl

theorem addRow_relColumn (b : reportFrameBuilder) (r : Row) :
    (addRow b r).frame.RelColumn = b.frame.RelColumn := by
  unfold addRow
  simp only
  split <;> rfl

theorem addRow_refValue_of_linked (b : reportFrameBuilder) (r : Row)
    (h : b.frame.RelColumn ≠ "") :
    (addRow b r).frame.RefValue = fmtV (r.GetValue b.frame.RelColumn 0) := by
  unfold addRow
  simp only
  rw [if_pos h]
  rfl

theorem addRows_relColumn (b : reportFrameBuilder) (rs : List Row) :
    (addRows b rs).frame.RelColumn = b.frame.RelColumn := by
  induction rs generalizing b with
  | nil => rfl
  | cons r rs ih =>
    show (addRows (addRow b r) rs).frame.RelColumn = _
    rw [ih, addRow_relColumn]

theorem addRows_snoc (b : reportFrameBuilder) (rs : List Row) (r : Row) :
    addRows b (rs ++ [r]) = addRow (addRows b rs) r := by
  simp [addRows, List.foldl_append]

/-! ## Claims -/

/-- C1: the declared delimiter is not applied. The constructor never stores the
delimiter map it builds, so on the column tags (multivalue, delimiter ",") the
values 1, 2, 3 give the cell "123" and not "1,2,3", and on columns name and
tags (multivalue, delimiter ";") the row name = "Alice", tags = ["x", "y"] gives
the sealed row ["Alice", "xy"] and not ["Alice", "x;y"]. -/
theorem C1_declared_delimiter_dropped :
    (indexColumns (tagsDef ",").Columns 0 ([], [])).2.index "tags" = "," ∧
    (newReportFrameBuilder [] (tagsDef ",")).2.attrMvDel = [] ∧
    (addRow (newReportFrameBuilder [] (tagsDef ",")).2 rowTags123).frame.Rows = [["123"]] ∧
    (done [] (addRow (newReportFrameBuilder [] nameTagsDef).2 rowAlice)).1.Rows
      = [["Alice", "xy"]] := by
  decide

/-- C2: the default delimiter is not applied. On the column tags (multivalue,
delimiter unset) the loop of the constructor computes the newline delimiter,
but the builder keeps the nil map, so the values "a", "b" give the cell "ab"
and not "a\nb". -/
theorem C2_default_delimiter_dropped :
    (indexColumns (tagsDef "").Columns 0 ([], [])).2.index "tags" = "\n" ∧
    (newReportFrameBuilder [] (tagsDef "")).2.attrMvDel = [] ∧
    (addRow (newReportFrameBuilder [] (tagsDef "")).2 rowTagsAB).frame.Rows = [["ab"]] := by
  decide

/-- C3: single-row projection. For a definition with pairwise distinct column
names and a row carrying exactly one value for every column, the frame
returned by done after one addRow on a new builder has exactly one row, with
one cell per column, the i-th being the "%v" rendering of the row's value for
the i-th column. -/
theorem C3_single_row_projection (s : Store) (D : ReportFrameDefinition) (r : Row)
    (hD : (D.Columns.map ReportFrameColumn.Name).Nodup)
    (hr : (r.CountValues.map Prod.fst).Nodup)
    (hone : ∀ c ∈ D.Columns, (c.Name, 1) ∈ r.CountValues) :
    (done (newReportFrameBuilder s D).1 (addRow (newReportFrameBuilder s D).2 r)).1.Rows
      = [D.Columns.map fun c => fmtV (r.GetValue c.Name 0)] := by
  show (addRow (newReportFrameBuilder s D).2 r).frame.Rows = _
  rw [addRow_rows, newBuilder_rows, List.nil_append]
  congr 1
  apply List.ext_getElem?
  intro j
  by_cases hj : j < D.Columns.length
  · have hc : D.Columns[j]? = some D.Columns[j] := List.getElem?_eq_getElem hj
    have hfind := newBuilder_find_last s D j _ hc
      (fun q c' hq hc' => nodup_names_last D.Columns hD j q _ c' hc hc' hq)
    have hinj : ∀ k', (newReportFrameBuilder s D).2.attrMapping.find k' = some j →
        k' = (D.Columns[j]).Name := by
      intro k' hk'
      obtain ⟨c, h1, h2⟩ := newBuilder_find_some s D k' j hk'
      rw [hc] at h1
      cases h1
      exact h2.symm
    rw [projectRow_cell _ r j _ 1 hj hfind hinj hr (hone _ (List.getElem_mem hj))]
    simp [addRowCell, joinMultiVal, stringifyVal, hc, List.range_succ, intercalate_singleton]
  · have h1 : (projectRow (newReportFrameBuilder s D).2 r).length ≤ j := by
      rw [projectRow_length]
      exact Nat.le_of_not_lt hj
    rw [List.getElem?_eq_none h1, List.getElem?_eq_none (by simpa using hj)]

/-- Witness for C3 on columns name and tags with the row name = "Bob", tags = "t". -/
theorem C3_single_row_projection_witness :
    (done (newReportFrameBuilder [] nameTagsDef).1
      (addRow (newReportFrameBuilder [] nameTagsDef).2
        (Row.ofAttrs [("tags", [Val.str "t"]), ("name", [Val.str "Bob"])]))).1.Rows
      = [nameTagsDef.Columns.map fun c =>
          fmtV ((Row.ofAttrs [("tags", [Val.str "t"]), ("name", [Val.str "Bob"])]).GetValue
            c.Name 0)] :=
  C3_single_row_projection [] nameTagsDef
    (Row.ofAttrs [("tags", [Val.str "t"]), ("name", [Val.str "Bob"])])
    (by decide) (by decide) (by decide)

/-- C4: link propagation, last write wins. After linked(c) with c non-empty on
a new builder and addRow on a non-empty run of rows ending in rn, the frame
returned by done has RelColumn = c and RefValue equal to the "%v" rendering of
rn's value of c at index 0. -/
theorem C4_link_last_write_wins (s : Store) (D : ReportFrameDefinition) (c : String)
    (rs : List Row) (rn : Row) (hc : c ≠ "") :
    (done (newReportFrameBuilder s D).1
        (addRows (linked (newReportFrameBuilder s D).2 c) (rs ++ [rn]))).1.RelColumn = c ∧
    (done (newReportFrameBuilder s D).1
        (addRows (linked (newReportFrameBuilder s D).2 c) (rs ++ [rn]))).1.RefValue
      = fmtV (rn.GetValue c 0) := by
  have hrel : (addRows (linked (newReportFrameBuilder s D).2 c) rs).frame.RelColumn = c := by
    rw [addRows_relColumn]
    rfl
  constructor
  · show (addRows (linked (newReportFrameBuilder s D).2 c) (rs ++ [rn])).frame.RelColumn = c
    rw [addRows_relColumn]
    rfl
  · show (addRows (linked (newReportFrameBuilder s D).2 c) (rs ++ [rn])).frame.RefValue = _
    rw [addRows_snoc, addRow_refValue_of_linked _ _ (by rw [hrel]; exact hc), hrel]

/-- Witness for C4: linked("id"), then rows with id "7" and "9", give RefValue "9". -/
theorem C4_link_last_write_wins_witness :
    (done (newReportFrameBuilder [] idDef).1
        (addRows (linked (newReportFrameBuilder [] idDef).2 "id") [rowId7, rowId9])).1.RelColumn
      = "id" ∧
    (done (newReportFrameBuilder [] idDef).1
        (addRows (linked (newReportFrameBuilder [] idDef).2 "id") [rowId7, rowId9])).1.RefValue
      = "9" :=
  C4_link_last_write_wins [] idDef "id" [rowId7] rowId9 (by decide)

theorem foldl_step_relColumn (c : String) (ops : List Op) (st : RunState)
    (hno : ∀ col, Op.linked col ∉ ops)
    (hcur : st.builder.frame.RelColumn = c)
    (hsealed : ∀ fr ∈ st.sealed, fr.RelColumn = c) :
    (ops.foldl RunState.step st).builder.frame.RelColumn = c ∧
    ∀ fr ∈ (ops.foldl RunState.step st).sealed, fr.RelColumn = c := by
  induction ops generalizing st with
  | nil => exact ⟨hcur, hsealed⟩
  | cons op ops ih =>
    rw [List.foldl_cons]
    have hno' : ∀ col, Op.linked col ∉ ops :=
      fun col h => hno col (List.mem_cons_of_mem _ h)
    cases op with
    | linked col => exact absurd (List.mem_cons_self _ _) (hno col)
    | addRow r => exact ih _ hno' ((addRow_relColumn st.builder r).trans hcur) hsealed
    | done =>
      refine ih _ hno' hcur ?_
      intro fr hfr
      rcases List.mem_append.1 hfr with h | h
      · exact hsealed fr h
      · rw [List.mem_singleton.1 h]
        exact hcur

/-- C5, as stated, fails: after linked("id") the frame that done starts still has
RelColumn "id", and so has the frame a second done returns. -/
theorem C5_link_cleared_counterexample :
    (done [] (linked (newReportFrameBuilder [] idDef).2 "id")).2.2.frame.RelColumn = "id" ∧
    (done [] (done [] (linked (newReportFrameBuilder [] idDef).2 "id")).2.2).1.RelColumn
      ≠ "" := by
  decide

/-- C5, amended: the link is carried across done. The frame that done starts has
the RelColumn and the RefValue of the frame just returned, and the frame the
next done returns has that RelColumn too; after any later calls of addRow and
done with no call of linked among them, the current frame and every frame those
done calls returned still have that RelColumn. -/
theorem C5_link_carried_across_done (s : Store) (b : reportFrameBuilder) (ops : List Op)
    (hno : ∀ col, Op.linked col ∉ ops) :
    (done s b).2.2.frame.RelColumn = b.frame.RelColumn ∧
    (done s b).2.2.frame.RefValue = b.frame.RefValue ∧
    (done (done s b).2.1 (done s b).2.2).1.RelColumn = b.frame.RelColumn ∧
    (ops.foldl RunState.step
        { store := (done s b).2.1, builder := (done s b).2.2, sealed := [] }
      ).builder.frame.RelColumn = b.frame.RelColumn ∧
    ∀ fr ∈ (ops.foldl RunState.step
        { store := (done s b).2.1, builder := (done s b).2.2, sealed := [] }).sealed,
      fr.RelColumn = b.frame.RelColumn := by
  have h := foldl_step_relColumn b.frame.RelColumn ops
    { store := (done s b).2.1, builder := (done s b).2.2, sealed := [] } hno rfl
    (by intro fr hfr; simp at hfr)
  exact ⟨rfl, rfl, rfl, h.1, h.2⟩

/-- Witness for C5, amended: linked("id") and done, then addRow, done, addRow,
done with no linked: both later frames still have RelColumn "id". -/
theorem C5_link_carried_across_done_witness :
    ([Op.addRow rowId7, Op.done, Op.addRow rowId9, Op.done].foldl RunState.step
        { store := (done [] (linked (newReportFrameBuilder [] idDef).2 "id")).2.1,
          builder := (done [] (linked (newReportFrameBuilder [] idDef).2 "id")).2.2,
          sealed := [] }).sealed.map (fun fr => (fr.RelColumn, fr.Rows))
      = [("id", [["7"]]), ("id", [["9"]])] ∧
    ∀ fr ∈ ([Op.addRow rowId7, Op.done, Op.addRow rowId9, Op.done].foldl RunState.step
        { store := (done [] (linked (newReportFrameBuilder [] idDef).2 "id")).2.1,
          builder := (done [] (linked (newReportFrameBuilder [] idDef).2 "id")).2.2,
          sealed := [] }).sealed,
      fr.RelColumn = (linked (newReportFrameBuilder [] idDef).2 "id").frame.RelColumn :=
  ⟨by decide,
    (C5_link_carried_across_done [] (linked (newReportFrameBuilder [] idDef).2 "id")
      [Op.addRow rowId7, Op.done, Op.addRow rowId9, Op.done]
      (by intro col h; simp at h)).2.2.2.2⟩

/-- C6: reset keeps all metadata but the rows. After done the new current frame
has the Name, Source, Ref, Columns, Sort, Filter, Paging pointer, RelColumn and
RefValue of the frame returned, the store of Paging objects is untouched (so the
Paging contents are the same), and Rows is empty. -/
theorem C6_reset_keeps_metadata (s : Store) (b : reportFrameBuilder) :
    (done s b).1 = b.frame ∧
    (done s b).2.2.frame = { b.frame with Rows := [] } ∧
    (done s b).2.2.frame.Name = b.frame.Name ∧
    (done s b).2.2.frame.Source = b.frame.Source ∧
    (done s b).2.2.frame.Ref = b.frame.Ref ∧
    (done s b).2.2.frame.Columns = b.frame.Columns ∧
    (done s b).2.2.frame.Sort_ = b.frame.Sort_ ∧
    (done s b).2.2.frame.Filter = b.frame.Filter ∧
    (done s b).2.2.frame.Paging = b.frame.Paging ∧
    readPaging (done s b).2.1 (done s b).2.2.frame = readPaging s b.frame ∧
    (done s b).2.2.frame.RelColumn = b.frame.RelColumn ∧
    (done s b).2.2.frame.RefValue = b.frame.RefValue ∧
    (done s b).2.2.frame.Rows = [] :=
  ⟨rfl, rfl, rfl, rfl, rfl, rfl, rfl, rfl, rfl, rfl, rfl, rfl, rfl⟩

/-- C7: sealed frames share one Paging object. For a definition with a Paging,
the frames returned by two successive done calls hold the same pointer (the
object allocated at construction): after a write of Limit or of PageCursor
through the first frame, the second frame reads the written value. -/
theorem C7_sealed_frames_share_paging (s : Store) (D : ReportFrameDefinition) (p : Nat)
    (hp : D.Paging = some p) (n : Nat) (c : Option String) :
    (twoDones s D).1.Paging = some s.length ∧
    (twoDones s D).2.1.Paging = some s.length ∧
    (readPaging (writeFrameLimit (twoDones s D).2.2 (twoDones s D).1 n)
      (twoDones s D).2.1).map Paging.Limit = some n ∧
    (readPaging (writeFramePageCursor (twoDones s D).2.2 (twoDones s D).1 c)
      (twoDones s D).2.1).map Paging.PageCursor = some c := by
  simp [twoDones, newReportFrameBuilder, freshFrame, hp, done, Store.alloc, readPaging,
    writeFrameLimit, writeFramePageCursor, Store.writeLimit, Store.writePageCursor,
    Store.deref]

/-- Witness for C7: the definition's Paging has Limit 10; the second sealed
frame reads Limit 10, and reads Limit 99 once 99 is written through the
first. -/
theorem C7_sealed_frames_share_paging_witness :
    readPaging (twoDones pagedStore pagedDef).2.2 (twoDones pagedStore pagedDef).2.1
      = some { Limit := 10, PageCursor := some "c1" } ∧
    readPaging
      (writeFrameLimit (twoDones pagedStore pagedDef).2.2 (twoDones pagedStore pagedDef).1 99)
      (twoDones pagedStore pagedDef).2.1
      = some { Limit := 99, PageCursor := some "c1" } ∧
    ((twoDones pagedStore pagedDef).1.Paging = some pagedStore.length ∧
    (twoDones pagedStore pagedDef).2.1.Paging = some pagedStore.length ∧
    (readPaging (writeFrameLimit (twoDones pagedStore pagedDef).2.2
      (twoDones pagedStore pagedDef).1 99) (twoDones pagedStore pagedDef).2.1).map Paging.Limit
      = some 99 ∧
    (readPaging (writeFramePageCursor (twoDones pagedStore pagedDef).2.2
      (twoDones pagedStore pagedDef).1 (some "c2")) (twoDones pagedStore pagedDef).2.1).map
      Paging.PageCursor = some (some "c2")) :=
  ⟨by decide, by decide,
    C7_sealed_frames_share_paging pagedStore pagedDef 0 rfl 99 (some "c2")⟩

/-- C8, as stated, fails: with the link column "id" set and a row that has no
attribute id, addRow leaves RefValue "<nil>", not the empty string. -/
theorem C8_absent_link_value_counterexample :
    (linked (newReportFrameBuilder [] idDef).2 "id").frame.RelColumn = "id" ∧
    rowBob.GetValue "id" 0 = Val.nil ∧
    (addRow (linked (newReportFrameBuilder [] idDef).2 "id") rowBob).frame.RefValue
      = "<nil>" ∧
    (addRow (linked (newReportFrameBuilder [] idDef).2 "id") rowBob).frame.RefValue ≠ "" := by
  decide

/-- C8, amended: an absent link value stringifies to "<nil>". For a builder
whose current frame has a non-empty RelColumn c and a row whose GetValue(c, 0)
is the nil value, addRow leaves RefValue equal to "<nil>". -/
theorem C8_absent_link_value_is_nil_text (b : reportFrameBuilder) (r : Row)
    (hc : b.frame.RelColumn ≠ "") (habs : r.GetValue b.frame.RelColumn 0 = Val.nil) :
    (addRow b r).frame.RefValue = "<nil>" := by
  rw [addRow_refValue_of_linked b r hc, habs]
  rfl

/-- Witness for C8, amended: link column "id", row name = "Bob". -/
theorem C8_absent_link_value_is_nil_text_witness :
    (addRow (linked (newReportFrameBuilder [] idDef).2 "id") rowBob).frame.RefValue = "<nil>" :=
  C8_absent_link_value_is_nil_text (linked (newReportFrameBuilder [] idDef).2 "id") rowBob
    (by decide) (by decide)

/-- C9, as stated, fails: on the single valued column name, the row
name = ["a", "b"] gives the cell "ab", not "a". -/
theorem C9_first_value_only_counterexample :
    (addRow (newReportFrameBuilder [] nameDef).2 rowNameAB).frame.Rows = [["ab"]] ∧
    (addRow (newReportFrameBuilder [] nameDef).2 rowNameAB).frame.Rows
      ≠ [[fmtV (rowNameAB.GetValue "name" 0)]] := by
  decide

/-- C9, amended: a column not marked Multivalue takes all the values, run
together. For a builder made from D, whatever its current frame f, a column c
not marked Multivalue at position j with no later column of the same name, and
a row exposing n values for c.Name, the row addRow appends has at position j
the "%v" renderings of all n values concatenated in order with nothing between
them; for n = 1 this is the rendering of the value at index 0. -/
theorem C9_single_valued_cell_concatenates (s : Store) (D : ReportFrameDefinition)
    (f : ReportFrame) (r : Row) (j : Nat) (c : ReportFrameColumn) (n : Nat)
    (hj : D.Columns[j]? = some c)
    (hlast : ∀ q c', j < q → D.Columns[q]? = some c' → c'.Name ≠ c.Name)
    (_hmv : c.Multivalue = false)
    (hr : (r.CountValues.map Prod.fst).Nodup)
    (hn : (c.Name, n) ∈ r.CountValues) :
    (addRow { (newReportFrameBuilder s D).2 with frame := f } r).frame.Rows
      = f.Rows ++ [projectRow { (newReportFrameBuilder s D).2 with frame := f } r] ∧
    (projectRow { (newReportFrameBuilder s D).2 with frame := f } r)[j]?
      = some (String.join ((List.range n).map fun i => fmtV (r.GetValue c.Name i))) ∧
    (n = 1 → (projectRow { (newReportFrameBuilder s D).2 with frame := f } r)[j]?
      = some (fmtV (r.GetValue c.Name 0))) := by
  have hlen : j < D.Columns.length := (List.getElem?_eq_some.1 hj).1
  have hfind : (newReportFrameBuilder s D).2.attrMapping.find c.Name = some j :=
    newBuilder_find_last s D j c hj hlast
  have hinj : ∀ k', (newReportFrameBuilder s D).2.attrMapping.find k' = some j →
      k' = c.Name := by
    intro k' hk'
    obtain ⟨c', h1, h2⟩ := newBuilder_find_some s D k' j hk'
    rw [hj] at h1
    cases h1
    exact h2.symm
  have hcell := projectRow_cell { (newReportFrameBuilder s D).2 with frame := f } r j c.Name n
    hlen hfind hinj hr hn
  rw [addRowCell_nil_delimiters _ r c.Name n rfl] at hcell
  refine ⟨addRow_rows _ r, hcell, ?_⟩
  intro h1
  subst h1
  rw [hcell]
  simp [List.range_succ, String.join]

/-- Witness for C9, amended: column name, row name = ["a", "b"], cell "ab". -/
theorem C9_single_valued_cell_concatenates_witness :
    (projectRow { (newReportFrameBuilder [] nameDef).2 with
        frame := (newReportFrameBuilder [] nameDef).2.frame } rowNameAB)[0]?
      = some (String.join ((List.range 2).map fun i => fmtV (rowNameAB.GetValue "name" i))) :=
  (C9_single_valued_cell_concatenates [] nameDef (newReportFrameBuilder [] nameDef).2.frame
    rowNameAB 0 { Name := "name", Multivalue := false, MultivalueDelimiter := "" } 2
    rfl (by intro q c' hq hc'; cases q <;> simp [nameDef, sampleDef] at hq hc')
    rfl (by decide) (by decide)).2.1

/-- C10: unknown-attribute tolerance. For a builder made from D, whatever its
current frame, and an attribute name k that is no column name of D: a row
that enumerates k with any count at any place, and reads every other
attribute as row r does, gets the same appended row as r without k. -/
theorem C10_unknown_attribute_ignored (s : Store) (D : ReportFrameDefinition)
    (f : ReportFrame) (before after : List (String × Nat)) (g g' : String → Nat → Val)
    (k : String) (n : Nat)
    (hk : k ∉ D.Columns.map ReportFrameColumn.Name)
    (hg : ∀ k', k' ≠ k → ∀ i, g' k' i = g k' i) :
    projectRow { (newReportFrameBuilder s D).2 with frame := f }
        { CountValues := before ++ (k, n) :: after, GetValue := g' }
      = projectRow { (newReportFrameBuilder s D).2 with frame := f }
        { CountValues := before ++ after, GetValue := g } ∧
    (addRow { (newReportFrameBuilder s D).2 with frame := f }
        { CountValues := before ++ (k, n) :: after, GetValue := g' }).frame.Rows
      = (addRow { (newReportFrameBuilder s D).2 with frame := f }
        { CountValues := before ++ after, GetValue := g }).frame.Rows := by
  have hnone : (newReportFrameBuilder s D).2.attrMapping.find k = none :=
    newBuilder_find_none s D k hk
  have hproj : projectRow { (newReportFrameBuilder s D).2 with frame := f }
        { CountValues := before ++ (k, n) :: after, GetValue := g' }
      = projectRow { (newReportFrameBuilder s D).2 with frame := f }
        { CountValues := before ++ after, GetValue := g } := by
    unfold projectRow
    simp only
    rw [foldl_addRowStep_congr _ { CountValues := before ++ after, GetValue := g }
      { CountValues := before ++ (k, n) :: after, GetValue := g' }]
    · rw [List.foldl_append, List.foldl_append, List.foldl_cons]
      congr 1
      unfold addRowStep
      simp only
      rw [hnone]
    · intro e _ hfind i
      apply hg
      intro hek
      apply hfind
      show (newReportFrameBuilder s D).2.attrMapping.find e.1 = none
      rw [hek]
      exact hnone
  refine ⟨hproj, ?_⟩
  rw [addRow_rows, addRow_rows, hproj]

/-- Witness for C10: column name, row name = "Bob", with and without extra = [1, 2]. -/
theorem C10_unknown_attribute_ignored_witness :
    projectRow { (newReportFrameBuilder [] nameDef).2 with
        frame := (newReportFrameBuilder [] nameDef).2.frame }
        { CountValues := [("name", 1)] ++ ("extra", 2) :: [], GetValue := rowBobExtra.GetValue }
      = projectRow { (newReportFrameBuilder [] nameDef).2 with
        frame := (newReportFrameBuilder [] nameDef).2.frame }
        { CountValues := [("name", 1)] ++ [], GetValue := rowBob.GetValue } :=
  (C10_unknown_attribute_ignored [] nameDef (newReportFrameBuilder [] nameDef).2.frame
    [("name", 1)] [] rowBob.GetValue rowBobExtra.GetValue "extra" 2 (by decide)
    (by
      intro k' hk' i
      simp only [rowBob, rowBobExtra, Row.ofAttrs, GoMap.find]
      by_cases h : "name" = k'
      · simp [h]
      · have h2 : ¬ ("extra" = k') := fun hh => hk' hh.symm
        simp [h, h2])).1

/-! ## Further facts about the projected row -/

theorem newBuilder_find_lt (s : Store) (D : ReportFrameDefinition) (k : String) (j : Nat)
    (h : (newReportFrameBuilder s D).2.attrMapping.find k = some j) :
    j < D.Columns.length := by
  obtain ⟨c, hc, _⟩ := newBuilder_find_some s D k j h
  exact (List.getElem?_eq_some.1 hc).1

theorem newBuilder_find_inj (s : Store) (D : ReportFrameDefinition) (k k' : String) (j : Nat)
    (h : (newReportFrameBuilder s D).2.attrMapping.find k = some j)
    (h' : (newReportFrameBuilder s D).2.attrMapping.find k' = some j) : k = k' := by
  obtain ⟨c, hc, hk⟩ := newBuilder_find_some s D k j h
  obtain ⟨c', hc', hk'⟩ := newBuilder_find_some s D k' j h'
  rw [hc] at hc'
  cases hc'
  rw [← hk, ← hk']

theorem projectRow_cell_empty (b : reportFrameBuilder) (r : Row) (j : Nat)
    (hj : j < b.def_.Columns.length)
    (h : ∀ e ∈ r.CountValues, b.attrMapping.find e.1 ≠ some j) :
    (projectRow b r)[j]? = some "" := by
  unfold projectRow
  rw [foldl_addRowStep_getElem?_of_ne b r r.CountValues _ j h]
  simp [hj]

theorem projectRow_congr_index (b b' : reportFrameBuilder) (r : Row)
    (h1 : b'.def_ = b.def_) (h2 : b'.attrMapping = b.attrMapping)
    (h3 : b'.attrMvDel = b.attrMvDel) : projectRow b' r = projectRow b r := by
  cases b
  cases b'
  simp only at h1 h2 h3
  subst h1 h2 h3
  rfl

/-! ## Claims, continued -/

/-- C11: missing-attribute tolerance. For a builder made from D, whatever its
current frame, a column position i of D and a row that does not enumerate the
attribute named by the column at i, the row addRow appends has the empty string
at position i. -/
theorem C11_missing_attribute_empty (s : Store) (D : ReportFrameDefinition)
    (f : ReportFrame) (r : Row) (i : Nat) (c : ReportFrameColumn)
    (hi : D.Columns[i]? = some c)
    (hmiss : c.Name ∉ r.CountValues.map Prod.fst) :
    (addRow { (newReportFrameBuilder s D).2 with frame := f } r).frame.Rows
      = f.Rows ++ [projectRow { (newReportFrameBuilder s D).2 with frame := f } r] ∧
    (projectRow { (newReportFrameBuilder s D).2 with frame := f } r)[i]? = some "" := by
  refine ⟨addRow_rows _ r, ?_⟩
  apply projectRow_cell_empty
  · exact (List.getElem?_eq_some.1 hi).1
  · intro e he hfind
    obtain ⟨c', hc', hname⟩ := newBuilder_find_some s D e.1 i hfind
    rw [hi] at hc'
    cases hc'
    exact hmiss (hname ▸ List.mem_map_of_mem Prod.fst he)

/-- Witness for C11: columns name and tags, row name = "Bob"; position 1 is empty. -/
theorem C11_missing_attribute_empty_witness :
    (projectRow { (newReportFrameBuilder [] nameTagsDef).2 with
        frame := (newReportFrameBuilder [] nameTagsDef).2.frame } rowBob)[1]? = some "" :=
  (C11_missing_attribute_empty [] nameTagsDef (newReportFrameBuilder [] nameTagsDef).2.frame
    rowBob 1 { Name := "tags", Multivalue := true, MultivalueDelimiter := ";" } rfl
    (by decide)).2

/-! ## Invariants of a run -/

theorem step_index (st : RunState) (op : Op) :
    (st.step op).builder.def_ = st.builder.def_ ∧
    (st.step op).builder.attrMapping = st.builder.attrMapping ∧
    (st.step op).builder.attrMvDel = st.builder.attrMvDel := by
  cases op <;> exact ⟨rfl, rfl, rfl⟩

theorem foldl_step_index (ops : List Op) (st : RunState) :
    (ops.foldl RunState.step st).builder.def_ = st.builder.def_ ∧
    (ops.foldl RunState.step st).builder.attrMapping = st.builder.attrMapping ∧
    (ops.foldl RunState.step st).builder.attrMvDel = st.builder.attrMvDel := by
  induction ops generalizing st with
  | nil => exact ⟨rfl, rfl, rfl⟩
  | cons op ops ih =>
    obtain ⟨h1, h2, h3⟩ := ih (st.step op)
    obtain ⟨g1, g2, g3⟩ := step_index st op
    exact ⟨h1.trans g1, h2.trans g2, h3.trans g3⟩

theorem foldl_step_segments (b0 : reportFrameBuilder) (ops : List Op) (st : RunState)
    (h1 : st.builder.def_ = b0.def_) (h2 : st.builder.attrMapping = b0.attrMapping)
    (h3 : st.builder.attrMvDel = b0.attrMvDel) :
    (ops.foldl RunState.step st).sealed.map ReportFrame.Rows
      = st.sealed.map ReportFrame.Rows ++ segmentRows b0 ops st.builder.frame.Rows := by
  induction ops generalizing st with
  | nil => simp [segmentRows]
  | cons op ops ih =>
    obtain ⟨g1, g2, g3⟩ := step_index st op
    have hstep := ih (st.step op) (g1.trans h1) (g2.trans h2) (g3.trans h3)
    rw [List.foldl_cons, hstep]
    cases op with
    | linked col => rfl
    | addRow r =>
      show _ ++ segmentRows b0 ops (addRow st.builder r).frame.Rows = _
      rw [addRow_rows, projectRow_congr_index b0 st.builder r h1 h2 h3]
      rfl
    | done =>
      show List.map ReportFrame.Rows (st.sealed ++ [st.builder.frame]) ++ segmentRows b0 ops [] = _
      simp [segmentRows]

/-- C12: segment contents. For every call sequence on a new builder, the rows
of the frames returned by its done calls are, frame by frame, the rows
projected by the addRow calls made since the previous done (or since
construction), one per call and in call order; and a done right after a done
returns a frame with no rows. -/
theorem C12_segment_contents (s : Store) (D : ReportFrameDefinition) (ops : List Op) :
    (run s D ops).sealed.map ReportFrame.Rows
      = segmentRows (newReportFrameBuilder s D).2 ops [] ∧
    ((run s D (ops ++ [Op.done, Op.done])).sealed.getLast?).map ReportFrame.Rows
      = some [] := by
  constructor
  · have h := foldl_step_segments (newReportFrameBuilder s D).2 ops (RunState.start s D)
      rfl rfl rfl
    have hrows : (RunState.start s D).builder.frame.Rows = [] := newBuilder_rows s D
    rw [hrows] at h
    simpa [run, RunState.start] using h
  · have happ : run s D (ops ++ [Op.done, Op.done])
        = ((run s D ops).step Op.done).step Op.done := by
      simp [run, List.foldl_append]
    rw [happ]
    simp [RunState.step, done, freshFrame]

theorem addRow_metadata (b : reportFrameBuilder) (r : Row) :
    (addRow b r).frame.metadata = b.frame.metadata := by
  unfold addRow
  simp only
  split <;> rfl

theorem foldl_step_metadata (F : ReportFrame) (S : Store) (ops : List Op) (st : RunState)
    (h0 : st.store = S) (h1 : st.builder.frame.metadata = F)
    (h2 : ∀ fr ∈ st.sealed, fr.metadata = F) :
    (ops.foldl RunState.step st).store = S ∧
    (ops.foldl RunState.step st).builder.frame.metadata = F ∧
    ∀ fr ∈ (ops.foldl RunState.step st).sealed, fr.metadata = F := by
  induction ops generalizing st with
  | nil => exact ⟨h0, h1, h2⟩
  | cons op ops ih =>
    rw [List.foldl_cons]
    cases op with
    | linked col => exact ih _ h0 h1 h2
    | addRow r => exact ih _ h0 ((addRow_metadata st.builder r).trans h1) h2
    | done =>
      refine ih _ h0 h1 ?_
      intro fr hfr
      rcases List.mem_append.1 hfr with h | h
      · exact h2 fr h
      · rw [List.mem_singleton.1 h]
        exact h1

/-- C13: definition metadata invariant. For every call sequence on a new
builder for D, every frame returned by done has the Name, Source, Ref, Columns,
Sort and Filter of D, no Paging when D has none, and, when D has one, a Paging
whose contents are those of the Paging of D. -/
theorem C13_definition_metadata (s : Store) (D : ReportFrameDefinition) (ops : List Op)
    (fr : ReportFrame) (hfr : fr ∈ (run s D ops).sealed) :
    fr.Name = D.Name ∧ fr.Source = D.Source ∧ fr.Ref = D.Ref ∧ fr.Columns = D.Columns ∧
    fr.Sort_ = D.Sort_ ∧ fr.Filter = D.Filter ∧
    (D.Paging = none → fr.Paging = none) ∧
    (∀ p, D.Paging = some p → readPaging (run s D ops).store fr = some (s.deref p)) := by
  obtain ⟨hstore, _, hsealed⟩ := foldl_step_metadata
    (RunState.start s D).builder.frame.metadata (RunState.start s D).store ops
    (RunState.start s D) rfl rfl (by intro fr h; simp [RunState.start] at h)
  have hm : fr.metadata = (RunState.start s D).builder.frame.metadata := hsealed fr hfr
  have hs : (run s D ops).store = (RunState.start s D).store := hstore
  have hName : fr.Name = (RunState.start s D).builder.frame.Name := by
    have h := congrArg ReportFrame.Name hm
    exact h
  have hSource : fr.Source = (RunState.start s D).builder.frame.Source := by
    have h := congrArg ReportFrame.Source hm
    exact h
  have hRef : fr.Ref = (RunState.start s D).builder.frame.Ref := by
    have h := congrArg ReportFrame.Ref hm
    exact h
  have hColumns : fr.Columns = (RunState.start s D).builder.frame.Columns := by
    have h := congrArg ReportFrame.Columns hm
    exact h
  have hSort : fr.Sort_ = (RunState.start s D).builder.frame.Sort_ := by
    have h := congrArg ReportFrame.Sort_ hm
    exact h
  have hFilter : fr.Filter = (RunState.start s D).builder.frame.Filter := by
    have h := congrArg ReportFrame.Filter hm
    exact h
  have hPaging : fr.Paging = (RunState.start s D).builder.frame.Paging := by
    have h := congrArg ReportFrame.Paging hm
    exact h
  rw [hs]
  cases hD : D.Paging with
  | none =>
    simp only [RunState.start, newReportFrameBuilder, freshFrame, hD] at hName hSource hRef
    simp only [RunState.start, newReportFrameBuilder, freshFrame, hD] at hColumns hSort hFilter
    simp only [RunState.start, newReportFrameBuilder, freshFrame, hD] at hPaging
    exact ⟨hName, hSource, hRef, hColumns, hSort, hFilter, fun _ => hPaging,
      fun p hp => by cases hp⟩
  | some q =>
    simp only [RunState.start, newReportFrameBuilder, freshFrame, hD] at hName hSource hRef
    simp only [RunState.start, newReportFrameBuilder, freshFrame, hD] at hColumns hSort hFilter
    simp only [RunState.start, newReportFrameBuilder, freshFrame, hD] at hPaging
    refine ⟨hName, hSource, hRef, hColumns, hSort, hFilter, (fun h => by cases h), ?_⟩
    intro p hp
    cases hp
    simp [readPaging, hPaging, RunState.start, newReportFrameBuilder, freshFrame, hD,
      Store.alloc, Store.deref]

/-- Witness for C13: the frame one done returns for pagedDef in pagedStore. -/
theorem C13_definition_metadata_witness :
    pagedSealed ∈ (run pagedStore pagedDef [Op.done]).sealed ∧
    pagedSealed.Columns = pagedDef.Columns ∧
    readPaging (run pagedStore pagedDef [Op.done]).store pagedSealed
      = some { Limit := 10, PageCursor := some "c1" } :=
  ⟨by decide,
    (C13_definition_metadata pagedStore pagedDef [Op.done] pagedSealed (by decide)).2.2.2.1,
    (C13_definition_metadata pagedStore pagedDef [Op.done] pagedSealed
      (by decide)).2.2.2.2.2.2.2 0 rfl⟩

theorem foldl_step_width (n : Nat) (ops : List Op) (st : RunState)
    (hn : st.builder.def_.Columns.length = n)
    (hcur : ∀ row ∈ st.builder.frame.Rows, row.length = n)
    (hsealed : ∀ fr ∈ st.sealed, ∀ row ∈ fr.Rows, row.length = n) :
    (∀ row ∈ (ops.foldl RunState.step st).builder.frame.Rows, row.length = n) ∧
    ∀ fr ∈ (ops.foldl RunState.step st).sealed, ∀ row ∈ fr.Rows, row.length = n := by
  induction ops generalizing st with
  | nil => exact ⟨hcur, hsealed⟩
  | cons op ops ih =>
    rw [List.foldl_cons]
    cases op with
    | linked col => exact ih _ hn hcur hsealed
    | addRow r =>
      refine ih _ hn ?_ hsealed
      intro row hrow
      have hrows : (RunState.step st (Op.addRow r)).builder.frame.Rows
          = st.builder.frame.Rows ++ [projectRow st.builder r] := addRow_rows st.builder r
      rw [hrows] at hrow
      rcases List.mem_append.1 hrow with h | h
      · exact hcur row h
      · rw [List.mem_singleton.1 h, projectRow_length, hn]
    | done =>
      refine ih _ hn ?_ ?_
      · intro row hrow
        simp [RunState.step, done, freshFrame] at hrow
      · intro fr hfr
        rcases List.mem_append.1 hfr with h | h
        · exact hsealed fr h
        · rw [List.mem_singleton.1 h]
          exact hcur

/-- C15: row width invariant. For every call sequence on a new builder for D,
every row of the frame the builder holds and of every frame its done calls
returned has exactly one cell per column of D; with no columns every such row
is the empty row. -/
theorem C15_row_width (s : Store) (D : ReportFrameDefinition) (ops : List Op)
    (fr : ReportFrame) (row : ReportFrameRow)
    (hfr : fr = (run s D ops).builder.frame ∨ fr ∈ (run s D ops).sealed)
    (hrow : row ∈ fr.Rows) :
    row.length = D.Columns.length ∧ (D.Columns = [] → row = []) := by
  obtain ⟨h1, h2⟩ := foldl_step_width D.Columns.length ops (RunState.start s D) rfl
    (by
      intro row hrow
      have : (RunState.start s D).builder.frame.Rows = [] := newBuilder_rows s D
      rw [this] at hrow
      simp at hrow)
    (by intro fr h; simp [RunState.start] at h)
  have hlen : row.length = D.Columns.length := by
    rcases hfr with h | h
    · subst h
      exact h1 row hrow
    · exact h2 fr h row hrow
  refine ⟨hlen, ?_⟩
  intro hD
  rw [hD] at hlen
  exact List.length_eq_zero.1 hlen

/-- Witness for C15: the row ["9"] of the first frame sealed by sampleOps. -/
theorem C15_row_width_witness :
    sampleSealed ∈ (run [] idDef sampleOps).sealed ∧ ["9"] ∈ sampleSealed.Rows ∧
    (["9"] : ReportFrameRow).length = idDef.Columns.length :=
  ⟨by decide, by decide,
    (C15_row_width [] idDef sampleOps sampleSealed ["9"] (Or.inr (by decide)) (by decide)).1⟩

/-! ## The index checks -/

theorem foldlM_setChecked_range (f : Nat → String) (m : Nat) (aux : List String)
    (hm : m ≤ aux.length) :
    (List.range m).foldlM (fun a i => setChecked a i (f i)) aux
      = some ((List.range m).map f ++ aux.drop m) := by
  induction m with
  | zero => simp
  | succ m ih =>
    have hlt : m < aux.length := hm
    rw [List.range_succ, List.foldlM_append, ih (Nat.le_of_lt hlt)]
    have hlen : m < ((List.range m).map f ++ aux.drop m).length := by
      simp
      omega
    simp only [Option.some_bind, List.foldlM_cons, List.foldlM_nil, setChecked, if_pos hlen]
    have hdrop : aux.drop m = aux[m] :: aux.drop (m + 1) := List.drop_eq_getElem_cons hlt
    have hA : ((List.range m).map f).length = m := by simp
    simp only [List.set_append, hA, Nat.lt_irrefl, if_false, Nat.sub_self, List.map_append,
      List.map_cons, List.map_nil, List.append_assoc, List.singleton_append, Option.pure_def,
      Option.bind_eq_bind, Option.some_bind]
    rw [hdrop, if_pos (by simp; exact hlt)]
    rfl

theorem addRowCellChecked_eq (b : reportFrameBuilder) (r : Row) (k : String) (cc : Nat) :
    addRowCellChecked b r k cc = some (addRowCell b r k cc) := by
  unfold addRowCellChecked addRowCell
  rw [foldlM_setChecked_range (fun i => stringifyVal b k (r.GetValue k i)) cc
    (List.replicate cc "") (by simp)]
  simp

theorem foldlM_addRowStepChecked (b : reportFrameBuilder) (r : Row) (n : Nat)
    (hb : ∀ k ix, b.attrMapping.find k = some ix → ix < n)
    (es : List (String × Nat)) (rrow : ReportFrameRow) (hlen : rrow.length = n) :
    es.foldlM (addRowStepChecked b r) rrow = some (es.foldl (addRowStep b r) rrow) := by
  induction es generalizing rrow with
  | nil => rfl
  | cons e es ih =>
    have hstep : addRowStepChecked b r rrow e = some (addRowStep b r rrow e) := by
      unfold addRowStepChecked addRowStep
      cases hf : b.attrMapping.find e.1 with
      | none => rfl
      | some ix =>
        simp only [addRowCellChecked_eq, setChecked]
        rw [if_pos (by rw [hlen]; exact hb _ _ hf)]
    rw [List.foldlM_cons, hstep, List.foldl_cons]
    simp only [Option.bind_eq_bind, Option.some_bind]
    exact ih _ (by rw [addRowStep_length]; exact hlen)

theorem addRowChecked_of_index_lt (b : reportFrameBuilder) (r : Row)
    (hb : ∀ k ix, b.attrMapping.find k = some ix → ix < b.def_.Columns.length) :
    addRowChecked b r = some (addRow b r) := by
  unfold addRowChecked
  rw [foldlM_addRowStepChecked b r b.def_.Columns.length hb r.CountValues _ (by simp)]
  rfl

/-- C14: duplicate column names resolve last-wins. For a builder made from D,
whatever its current frame, a column name whose last position in D is j, and a
row carrying that attribute with n values, the row addRow appends has the
attribute's cell (its values stringified and joined) at position j, and the
empty string at every earlier position of the same name. -/
theorem C14_duplicate_names_last_wins (s : Store) (D : ReportFrameDefinition)
    (f : ReportFrame) (r : Row) (j : Nat) (c : ReportFrameColumn) (n : Nat)
    (hj : D.Columns[j]? = some c)
    (hlast : ∀ q c', j < q → D.Columns[q]? = some c' → c'.Name ≠ c.Name)
    (hr : (r.CountValues.map Prod.fst).Nodup)
    (hn : (c.Name, n) ∈ r.CountValues) :
    (addRow { (newReportFrameBuilder s D).2 with frame := f } r).frame.Rows
      = f.Rows ++ [projectRow { (newReportFrameBuilder s D).2 with frame := f } r] ∧
    (projectRow { (newReportFrameBuilder s D).2 with frame := f } r)[j]?
      = some (addRowCell { (newReportFrameBuilder s D).2 with frame := f } r c.Name n) ∧
    ∀ i c', i < j → D.Columns[i]? = some c' → c'.Name = c.Name →
      (projectRow { (newReportFrameBuilder s D).2 with frame := f } r)[i]? = some "" := by
  have hfind : (newReportFrameBuilder s D).2.attrMapping.find c.Name = some j :=
    newBuilder_find_last s D j c hj hlast
  refine ⟨addRow_rows _ r, ?_, ?_⟩
  · exact projectRow_cell { (newReportFrameBuilder s D).2 with frame := f } r j c.Name n
      (List.getElem?_eq_some.1 hj).1 hfind
      (fun k' hk' => newBuilder_find_inj s D k' c.Name j hk' hfind) hr hn
  · intro i c' hij hi hname
    apply projectRow_cell_empty
    · exact (List.getElem?_eq_some.1 hi).1
    · intro e _ hfe
      obtain ⟨c2, hc2, hn2⟩ := newBuilder_find_some s D e.1 i hfe
      rw [hi] at hc2
      cases hc2
      have hfe' : (newReportFrameBuilder s D).2.attrMapping.find c.Name = some i := by
        rw [← hname, hn2]
        exact hfe
      rw [hfind] at hfe'
      cases hfe'
      exact Nat.lt_irrefl _ hij

/-- Witness for C14: columns k, other, k and the row k = "v" give ["", "", "v"]. -/
theorem C14_duplicate_names_last_wins_witness :
    projectRow (newReportFrameBuilder [] dupDef).2 rowK = ["", "", "v"] ∧
    (projectRow { (newReportFrameBuilder [] dupDef).2 with
        frame := (newReportFrameBuilder [] dupDef).2.frame } rowK)[0]? = some "" :=
  ⟨by decide,
    (C14_duplicate_names_last_wins [] dupDef (newReportFrameBuilder [] dupDef).2.frame rowK 2
      { Name := "k", Multivalue := false, MultivalueDelimiter := "" } 1 rfl
      (by
        intro q c' hq hc'
        have h3 : dupDef.Columns.length = 3 := rfl
        have := (List.getElem?_eq_some.1 hc').1
        omega)
      (by decide) (by decide)).2.2 0
      { Name := "k", Multivalue := false, MultivalueDelimiter := "" } (by decide) rfl rfl⟩

/-- C16: addRow never fails. For a builder made from D, whatever its current
frame, and every row, addRow with the index checks of Go completes with the
result of addRow, which appends one row: every column index found in
attrMapping is below len(D.Columns), and every value index of the inner loop
is below the count of the attribute. -/
theorem C16_addRow_in_bounds (s : Store) (D : ReportFrameDefinition) (f : ReportFrame)
    (r : Row) :
    addRowChecked { (newReportFrameBuilder s D).2 with frame := f } r
      = some (addRow { (newReportFrameBuilder s D).2 with frame := f } r) ∧
    (addRow { (newReportFrameBuilder s D).2 with frame := f } r).frame.Rows.length
      = f.Rows.length + 1 ∧
    (∀ k ix, (newReportFrameBuilder s D).2.attrMapping.find k = some ix →
      ix < D.Columns.length) ∧
    ∀ e ∈ r.CountValues, ∀ i ∈ List.range e.2, i < e.2 := by
  refine ⟨?_, ?_, newBuilder_find_lt s D, fun e _ i hi => List.mem_range.1 hi⟩
  · exact addRowChecked_of_index_lt { (newReportFrameBuilder s D).2 with frame := f } r
      (newBuilder_find_lt s D)
  · rw [addRow_rows]
    simp

/-- Witness for C16: columns name and tags, row name = "Bob", tags = ["x", "y"]. -/
theorem C16_addRow_in_bounds_witness :
    (addRowChecked (newReportFrameBuilder [] nameTagsDef).2 rowBobTags).map
        (fun b => b.frame.Rows) = some [["Bob", "xy"]] ∧
    addRowChecked { (newReportFrameBuilder [] nameTagsDef).2 with
        frame := (newReportFrameBuilder [] nameTagsDef).2.frame } rowBobTags
      = some (addRow { (newReportFrameBuilder [] nameTagsDef).2 with
        frame := (newReportFrameBuilder [] nameTagsDef).2.frame } rowBobTags) :=
  ⟨by decide,
    (C16_addRow_in_bounds [] nameTagsDef (newReportFrameBuilder [] nameTagsDef).2.frame
      rowBobTags).1⟩

theorem foldl_linked (links : List String) (st : RunState) :
    ((links.map Op.linked).foldl RunState.step st).store = st.store ∧
    ((links.map Op.linked).foldl RunState.step st).sealed = st.sealed ∧
    ((links.map Op.linked).foldl RunState.step st).builder.frame.Rows
      = st.builder.frame.Rows ∧
    ((links.map Op.linked).foldl RunState.step st).builder.frame.RefValue
      = st.builder.frame.RefValue := by
  induction links generalizing st with
  | nil => exact ⟨rfl, rfl, rfl, rfl⟩
  | cons l links ih =>
    obtain ⟨h1, h2, h3, h4⟩ := ih (st.step (Op.linked l))
    exact ⟨h1, h2, h3, h4⟩

/-- C17, as stated, fails: addRow of the row id = "7", then linked("id"), then
done returns a frame with RelColumn "id" and one row whose RefValue is still
empty, not "7". -/
theorem C17_refValue_counterexample :
    (run [] idDef [Op.addRow rowId7, Op.linked "id", Op.done]).sealed.map
        (fun fr => (fr.RelColumn, fr.Rows, fr.RefValue)) = [("id", [["7"]], "")] ∧
    fmtV (rowId7.GetValue "id" 0) = "7" := by
  decide

/-- C17, amended: RefValue reflects the most recently added row under the link
column in force when that row was added. For every call sequence pre after
which RelColumn is a non-empty c, a row r added next, any linked calls after it
and then done: the frame returned has the row projected from r as its last row
and RefValue equal to the "%v" rendering of the index-0 value of c in r; that
is the value of the frame's own RelColumn when the linked calls left it at c. -/
theorem C17_refValue_of_last_row (s : Store) (D : ReportFrameDefinition) (pre : List Op)
    (r : Row) (links : List String)
    (hc : (run s D pre).builder.frame.RelColumn ≠ "") :
    ∃ fr, (run s D (pre ++ Op.addRow r :: (links.map Op.linked ++ [Op.done]))).sealed.getLast?
        = some fr ∧
      fr.Rows.getLast? = some (projectRow (newReportFrameBuilder s D).2 r) ∧
      fr.RefValue = fmtV (r.GetValue (run s D pre).builder.frame.RelColumn 0) ∧
      (fr.RelColumn = (run s D pre).builder.frame.RelColumn →
        fr.RefValue = fmtV (r.GetValue fr.RelColumn 0)) := by
  have hrun : run s D (pre ++ Op.addRow r :: (links.map Op.linked ++ [Op.done]))
      = ((links.map Op.linked).foldl RunState.step
          ((run s D pre).step (Op.addRow r))).step Op.done := by
    simp [run, List.foldl_append]
  obtain ⟨_, _, hrows, hval⟩ := foldl_linked links ((run s D pre).step (Op.addRow r))
  obtain ⟨i1, i2, i3⟩ := foldl_step_index pre (RunState.start s D)
  have hproj : projectRow (run s D pre).builder r
      = projectRow (newReportFrameBuilder s D).2 r :=
    projectRow_congr_index _ _ r i1 i2 i3
  have hrows2 : ((run s D pre).step (Op.addRow r)).builder.frame.Rows
      = (run s D pre).builder.frame.Rows ++ [projectRow (newReportFrameBuilder s D).2 r] := by
    rw [← hproj]
    exact addRow_rows _ r
  have hval2 : ((run s D pre).step (Op.addRow r)).builder.frame.RefValue
      = fmtV (r.GetValue (run s D pre).builder.frame.RelColumn 0) :=
    addRow_refValue_of_linked _ r hc
  have hfr : (run s D (pre ++ Op.addRow r :: (links.map Op.linked ++ [Op.done]))).sealed.getLast?
      = some ((links.map Op.linked).foldl RunState.step
          ((run s D pre).step (Op.addRow r))).builder.frame := by
    rw [hrun]
    simp [RunState.step, done]
  refine ⟨_, hfr, ?_, ?_, ?_⟩
  · rw [hrows, hrows2]
    simp
  · rw [hval, hval2]
  · intro hsame
    rw [hsame, hval, hval2]

/-- Witness for C17, amended: linked("id"), then rows id = "7" and id = "9", then
done. -/
theorem C17_refValue_of_last_row_witness :
    (run [] idDef [Op.linked "id", Op.addRow rowId7, Op.addRow rowId9, Op.done]).sealed.map
        (fun fr => (fr.RelColumn, fr.RefValue)) = [("id", "9")] ∧
    ∃ fr, (run [] idDef ([Op.linked "id", Op.addRow rowId7] ++
          Op.addRow rowId9 :: (([] : List String).map Op.linked ++ [Op.done]))).sealed.getLast?
        = some fr ∧
      fr.Rows.getLast? = some (projectRow (newReportFrameBuilder [] idDef).2 rowId9) ∧
      fr.RefValue = fmtV (rowId9.GetValue
        (run [] idDef [Op.linked "id", Op.addRow rowId7]).builder.frame.RelColumn 0) ∧
      (fr.RelColumn = (run [] idDef [Op.linked "id", Op.addRow rowId7]).builder.frame.RelColumn →
        fr.RefValue = fmtV (rowId9.GetValue fr.RelColumn 0)) :=
  ⟨by decide,
    C17_refValue_of_last_row [] idDef [Op.linked "id", Op.addRow rowId7] rowId9 []
      (by decide)⟩

/-- C18: linked is a pure tag. For every builder and every string col, linked
sets RelColumn of the current frame to col and leaves Rows, RefValue, the
definition-derived fields, the definition and both index maps as they were. -/
theorem C18_linked_pure_tag (b : reportFrameBuilder) (col : String) :
    (linked b col).frame.RelColumn = col ∧
    (linked b col).frame = { b.frame with RelColumn := col } ∧
    (linked b col).frame.Rows = b.frame.Rows ∧
    (linked b col).frame.RefValue = b.frame.RefValue ∧
    (linked b col).frame.metadata = b.frame.metadata ∧
    (linked b col).def_ = b.def_ ∧
    (linked b col).attrMapping = b.attrMapping ∧
    (linked b col).attrMvDel = b.attrMvDel :=
  ⟨rfl, rfl, rfl, rfl, rfl, rfl, rfl, rfl⟩

/-- C19: independence from the enumeration order. For a builder made from D,
whatever its current frame, and a row with distinct attribute names, the row
addRow appends is the same for every order in which CountValues enumerates the
attributes; and attrMapping never sends two distinct names to one index. -/
theorem C19_enumeration_order (s : Store) (D : ReportFrameDefinition) (f : ReportFrame)
    (es es' : List (String × Nat)) (g : String → Nat → Val)
    (hperm : es.Perm es') (hnodup : (es.map Prod.fst).Nodup) :
    projectRow { (newReportFrameBuilder s D).2 with frame := f }
        { CountValues := es, GetValue := g }
      = projectRow { (newReportFrameBuilder s D).2 with frame := f }
        { CountValues := es', GetValue := g } ∧
    (addRow { (newReportFrameBuilder s D).2 with frame := f }
        { CountValues := es, GetValue := g }).frame
      = (addRow { (newReportFrameBuilder s D).2 with frame := f }
        { CountValues := es', GetValue := g }).frame ∧
    ∀ k k' j, (newReportFrameBuilder s D).2.attrMapping.find k = some j →
      (newReportFrameBuilder s D).2.attrMapping.find k' = some j → k = k' := by
  have hnodup' : (es'.map Prod.fst).Nodup := (hperm.map Prod.fst).nodup_iff.1 hnodup
  have hproj : projectRow { (newReportFrameBuilder s D).2 with frame := f }
        { CountValues := es, GetValue := g }
      = projectRow { (newReportFrameBuilder s D).2 with frame := f }
        { CountValues := es', GetValue := g } := by
    apply List.ext_getElem?
    intro j
    by_cases hj : j < D.Columns.length
    · by_cases hex : ∃ e ∈ es, (newReportFrameBuilder s D).2.attrMapping.find e.1 = some j
      · obtain ⟨e, he, hfe⟩ := hex
        have hinj : ∀ k', (newReportFrameBuilder s D).2.attrMapping.find k' = some j →
            k' = e.1 := fun k' hk' => newBuilder_find_inj s D k' e.1 j hk' hfe
        rw [projectRow_cell { (newReportFrameBuilder s D).2 with frame := f }
            { CountValues := es, GetValue := g } j e.1 e.2 hj hfe hinj hnodup he,
          projectRow_cell { (newReportFrameBuilder s D).2 with frame := f }
            { CountValues := es', GetValue := g } j e.1 e.2 hj hfe hinj hnodup'
            (hperm.mem_iff.1 he)]
        rfl
      · rw [projectRow_cell_empty { (newReportFrameBuilder s D).2 with frame := f }
            { CountValues := es, GetValue := g } j hj (fun e he hfe => hex ⟨e, he, hfe⟩),
          projectRow_cell_empty { (newReportFrameBuilder s D).2 with frame := f }
            { CountValues := es', GetValue := g } j hj
            (fun e he hfe => hex ⟨e, hperm.mem_iff.2 he, hfe⟩)]
    · rw [List.getElem?_eq_none (by rw [projectRow_length]; exact Nat.le_of_not_lt hj),
        List.getElem?_eq_none (by rw [projectRow_length]; exact Nat.le_of_not_lt hj)]
  refine ⟨hproj, ?_, newBuilder_find_inj s D⟩
  unfold addRow
  simp only [hproj]

/-- Witness for C19: name and tags enumerated in either order. -/
theorem C19_enumeration_order_witness :
    projectRow { (newReportFrameBuilder [] nameTagsDef).2 with
        frame := (newReportFrameBuilder [] nameTagsDef).2.frame }
        { CountValues := [("name", 1), ("tags", 2)], GetValue := rowBobTags.GetValue }
      = projectRow { (newReportFrameBuilder [] nameTagsDef).2 with
        frame := (newReportFrameBuilder [] nameTagsDef).2.frame }
        { CountValues := [("tags", 2), ("name", 1)], GetValue := rowBobTags.GetValue } :=
  (C19_enumeration_order [] nameTagsDef (newReportFrameBuilder [] nameTagsDef).2.frame
    [("name", 1), ("tags", 2)] [("tags", 2), ("name", 1)] rowBobTags.GetValue
    (List.Perm.swap _ _ _) (by decide)).1

/-- C20: addRow without a link leaves the link state alone. For a builder whose
current frame has RelColumn = "", addRow changes the current frame only by
appending one row to Rows, so RefValue and RelColumn stay as they were; and for
every builder addRow leaves RelColumn, the definition and the index maps
unchanged. -/
theorem C20_addRow_without_link (b : reportFrameBuilder) (r : Row) :
    (b.frame.RelColumn = "" →
      (addRow b r).frame = { b.frame with Rows := b.frame.Rows ++ [projectRow b r] } ∧
      (addRow b r).frame.RefValue = b.frame.RefValue ∧
      (addRow b r).frame.RelColumn = b.frame.RelColumn) ∧
    (addRow b r).frame.RelColumn = b.frame.RelColumn ∧
    (addRow b r).def_ = b.def_ ∧
    (addRow b r).attrMapping = b.attrMapping ∧
    (addRow b r).attrMvDel = b.attrMvDel := by
  refine ⟨?_, addRow_relColumn b r, rfl, rfl, rfl⟩
  intro h
  have hframe : (addRow b r).frame
      = { b.frame with Rows := b.frame.Rows ++ [projectRow b r] } := by
    unfold addRow
    simp only
    rw [if_neg (by intro hne; exact hne h)]
  exact ⟨hframe, by rw [hframe], by rw [hframe]⟩

/-- Witness for C20: a new builder for the column id and the row id = "7". -/
theorem C20_addRow_without_link_witness :
    (addRow (newReportFrameBuilder [] idDef).2 rowId7).frame
      = { (newReportFrameBuilder [] idDef).2.frame with
          Rows := (newReportFrameBuilder [] idDef).2.frame.Rows
            ++ [projectRow (newReportFrameBuilder [] idDef).2 rowId7] } :=
  ((C20_addRow_without_link (newReportFrameBuilder [] idDef).2 rowId7).1 (by decide)).1

end Reporter
